import Mathlib

/-!
# FaceBlur: verification of the core algorithms

A shallow embedding, in Lean 4, of the algorithmic core of the FaceBlur
repository, together with theorems settling the specification's claims
about it.  Each definition mirrors one function of the Python source
(`face_blur/services/blur_service.py`, `video_service.py`,
`storage/cleanup.py`, `workers/tasks.py`, `api/routes.py`, `api/app.py`);
machine floats that only ever hold small integers or exact fifths are
modelled with exact `Int`/`Rat` arithmetic, and the external OpenCV /
ffmpeg calls are modelled as explicit parameters or boolean outcomes.
-/

namespace FaceBlur

/-! ## Bounding boxes and the greedy overlap merge

Source: `blur_service.py`, `_merge_overlaps(boxes, overlap_thresh=0.2)`.
The Python code converts the integer boxes to `float32`, computes
`areas = (x2 - x1 + 1) * (y2 - y1 + 1)` with `x2 = x1 + w`, sorts the
indices by area descending (`areas.argsort()[::-1]`), and repeatedly
keeps the largest remaining box, dropping every other remaining box
whose `intersection / own-area` ratio exceeds `0.2`.  All quantities are
integers (box coordinates come from the detector), so the float
arithmetic is exact and is modelled over `Int`; the ratio comparison
`(w * h) / areas[j] <= 0.2` is modelled as the exact cross-multiplied
comparison `5 * interArea <= area`.  `argsort` descending is modelled as
sorting by area descending (its tie order is unspecified and immaterial
here).  The `while` loop consumes at least one pool element per
iteration, so it is bounded by the pool size; the model makes that bound
an explicit structural fuel. -/

structure Box where
  x : Int
  y : Int
  w : Int
  h : Int
deriving DecidableEq, Repr

/-- `(x2 - x1 + 1) * (y2 - y1 + 1)` from `_merge_overlaps` (line 26). -/
def area (b : Box) : Int := (b.w + 1) * (b.h + 1)

/-- Intersection width `max(0, xx2 - xx1 + 1)` (lines 34-39). -/
def interW (a b : Box) : Int :=
  max 0 (min (a.x + a.w) (b.x + b.w) - max a.x b.x + 1)

/-- Intersection height `max(0, yy2 - yy1 + 1)` (lines 35-40). -/
def interH (a b : Box) : Int :=
  max 0 (min (a.y + a.h) (b.y + b.h) - max a.y b.y + 1)

/-- Intersection area `w * h` (line 41). -/
def interArea (a b : Box) : Int := interW a b * interH a b

/-- The survival test `overlap <= overlap_thresh` of line 43 with
`overlap = interArea i c / area c` and `overlap_thresh = 0.2`, written
exactly: `c` is kept in the pool iff `5 * interArea i c ≤ area c`. -/
def keepBox (i c : Box) : Bool := decide (5 * interArea i c ≤ area c)

/-- Descending-area comparison used to model `areas.argsort()[::-1]`. -/
def areaDesc (a b : Box) : Prop := area b ≤ area a

instance : DecidableRel areaDesc := fun a b =>
  inferInstanceAs (Decidable (area b ≤ area a))

instance : IsTotal Box areaDesc := ⟨fun a b => le_total (area b) (area a)⟩

instance : IsTrans Box areaDesc := ⟨fun _ _ _ h h2 => le_trans h2 h⟩

/-- The `while order.size > 0` loop of `_merge_overlaps` (lines 30-43):
keep the head (largest remaining) box, drop every remaining box failing
`keepBox`, repeat.  Each iteration consumes at least the head, so fuel
equal to the pool size makes the recursion structural without changing
the computed value. -/
def mergeLoop : Nat → List Box → List Box
  | _, [] => []
  | 0, _ :: _ => []
  | fuel + 1, i :: rest => i :: mergeLoop fuel (rest.filter (keepBox i))

/-- `_merge_overlaps(boxes, overlap_thresh=0.2)`: pool the boxes sorted
by area descending and run the greedy suppression loop.  The empty input
short-circuits to `[]` in the source; the model agrees definitionally. -/
def mergeOverlaps (boxes : List Box) : List Box :=
  mergeLoop boxes.length (List.insertionSort areaDesc boxes)

theorem mergeLoop_sublist :
    ∀ (fuel : Nat) (l : List Box), List.Sublist (mergeLoop fuel l) l
  | _, [] => by simp [mergeLoop]
  | 0, _ :: _ => by simp [mergeLoop]
  | fuel + 1, i :: rest => by
    rw [mergeLoop]
    exact ((mergeLoop_sublist fuel _).trans (List.filter_sublist _)).cons₂ i

theorem mergeLoop_subset (fuel : Nat) (l : List Box) :
    mergeLoop fuel l ⊆ l :=
  (mergeLoop_sublist fuel l).subset

/-- On a list sorted by descending area, every pair of boxes surviving
the greedy loop satisfies the suppression bound, the later box being the
one of smaller (or equal) area. -/
theorem mergeLoop_pairwise :
    ∀ (fuel : Nat) (l : List Box), l.Pairwise areaDesc →
      (mergeLoop fuel l).Pairwise
        (fun a b => 5 * interArea a b ≤ area b ∧ area b ≤ area a)
  | _, [] => by simp [mergeLoop]
  | 0, _ :: _ => by simp [mergeLoop]
  | fuel + 1, i :: rest => by
    intro hs
    rw [mergeLoop]
    rw [List.pairwise_cons] at hs ⊢
    refine ⟨?_, mergeLoop_pairwise fuel _ (hs.2.filter _)⟩
    intro c hc
    have hcf : c ∈ rest.filter (keepBox i) := mergeLoop_subset fuel _ hc
    rw [List.mem_filter] at hcf
    refine ⟨?_, hs.1 c hcf.1⟩
    have := hcf.2
    rwa [keepBox, decide_eq_true_eq] at this

theorem interW_comm (a b : Box) : interW a b = interW b a := by
  unfold interW
  rw [min_comm (a.x + a.w), max_comm a.x]

theorem interH_comm (a b : Box) : interH a b = interH b a := by
  unfold interH
  rw [min_comm (a.y + a.h), max_comm a.y]

theorem interArea_comm (a b : Box) : interArea a b = interArea b a := by
  unfold interArea
  rw [interW_comm, interH_comm]

/-- The retained boxes, in output order, pairwise satisfy the exact form
of the `0.2` bound against the smaller area. -/
theorem mergeOverlaps_pairwise (boxes : List Box) :
    (mergeOverlaps boxes).Pairwise
      (fun a b => 5 * interArea a b ≤ min (area a) (area b)) := by
  have hs : (List.insertionSort areaDesc boxes).Pairwise areaDesc :=
    List.sorted_insertionSort areaDesc boxes
  refine (mergeLoop_pairwise _ _ hs).imp ?_
  rintro a b ⟨h1, h2⟩
  omega

/-- C1: any two distinct boxes retained by `_merge_overlaps` (threshold
`0.2`) have overlap ratio — intersection area over the smaller box's
area, both computed with the source's `+1` convention — at most `0.2`;
written exactly, `5 * interArea ≤ min(area, area)`.  Consequently of any
two input boxes whose ratio exceeds `0.2` at most one survives. -/
theorem mergeOverlaps_no_excess_overlap (boxes : List Box)
    (i j : Nat) (hi : i < (mergeOverlaps boxes).length)
    (hj : j < (mergeOverlaps boxes).length) (hne : i ≠ j) :
    5 * interArea ((mergeOverlaps boxes).get ⟨i, hi⟩)
        ((mergeOverlaps boxes).get ⟨j, hj⟩) ≤
      min (area ((mergeOverlaps boxes).get ⟨i, hi⟩))
        (area ((mergeOverlaps boxes).get ⟨j, hj⟩)) := by
  have hp := mergeOverlaps_pairwise boxes
  rw [List.pairwise_iff_get] at hp
  rcases Nat.lt_or_ge i j with hij | hij
  · exact hp ⟨i, hi⟩ ⟨j, hj⟩ hij
  · have hji : j < i := lt_of_le_of_ne hij (Ne.symm hne)
    have := hp ⟨j, hj⟩ ⟨i, hi⟩ hji
    rw [interArea_comm, min_comm]
    exact this

/-- Witness for C1: on two far-apart boxes both survive the merge and
the theorem applies at indices `0` and `1`. -/
theorem mergeOverlaps_no_excess_overlap_witness :
    (0 : Nat) < (mergeOverlaps [⟨0, 0, 10, 10⟩, ⟨100, 100, 10, 10⟩]).length ∧
    (1 : Nat) < (mergeOverlaps [⟨0, 0, 10, 10⟩, ⟨100, 100, 10, 10⟩]).length ∧
    5 * interArea ((mergeOverlaps [⟨0, 0, 10, 10⟩, ⟨100, 100, 10, 10⟩]).get
          ⟨0, by decide⟩)
        ((mergeOverlaps [⟨0, 0, 10, 10⟩, ⟨100, 100, 10, 10⟩]).get
          ⟨1, by decide⟩) ≤
      min (area ((mergeOverlaps [⟨0, 0, 10, 10⟩, ⟨100, 100, 10, 10⟩]).get
          ⟨0, by decide⟩))
        (area ((mergeOverlaps [⟨0, 0, 10, 10⟩, ⟨100, 100, 10, 10⟩]).get
          ⟨1, by decide⟩)) :=
  ⟨by decide, by decide,
    mergeOverlaps_no_excess_overlap [⟨0, 0, 10, 10⟩, ⟨100, 100, 10, 10⟩]
      0 1 (by decide) (by decide) (by decide)⟩

/-- A list already pairwise-compatible with the suppression test passes
through the greedy loop unchanged (given enough fuel). -/
theorem mergeLoop_eq_self :
    ∀ (fuel : Nat) (l : List Box), l.length ≤ fuel →
      l.Pairwise (fun a b => 5 * interArea a b ≤ area b) →
      mergeLoop fuel l = l
  | _, [], _, _ => by simp [mergeLoop]
  | fuel + 1, i :: rest, hlen, hp => by
    rw [List.pairwise_cons] at hp
    have hf : rest.filter (keepBox i) = rest := by
      rw [List.filter_eq_self]
      intro c hc
      rw [keepBox, decide_eq_true_eq]
      exact hp.1 c hc
    rw [mergeLoop, hf, mergeLoop_eq_self fuel rest
      (by simpa using Nat.lt_succ_iff.mp (Nat.lt_of_lt_of_le
        (by simp) hlen)) hp.2]

/-- C2: `_merge_overlaps` is idempotent — running the merge on its own
output returns the output itself (in the model, even as the same list,
hence in particular the same set of boxes). -/
theorem mergeOverlaps_idempotent (boxes : List Box) :
    mergeOverlaps (mergeOverlaps boxes) = mergeOverlaps boxes := by
  have hsorted : (mergeOverlaps boxes).Pairwise areaDesc :=
    (List.sorted_insertionSort areaDesc boxes).sublist
      (mergeLoop_sublist _ _)
  have hpair : (mergeOverlaps boxes).Pairwise
      (fun a b => 5 * interArea a b ≤ area b) :=
    (mergeLoop_pairwise _ _ (List.sorted_insertionSort areaDesc boxes)).imp
      fun h => h.1
  show mergeLoop (mergeOverlaps boxes).length
      (List.insertionSort areaDesc (mergeOverlaps boxes)) =
    mergeOverlaps boxes
  rw [List.Sorted.insertionSort_eq hsorted]
  exact mergeLoop_eq_self _ _ le_rfl hpair

/-! ## Video pipeline: frame-rate cadence

Source: `video_service.py`, `process_video_blur` (lines 156-161 and the
`while True` loop of lines 189-206).  The container fps is a float but
the quantities here (`24`, `8`, `fps / max_fps`, `fps / stride`) are
exact in binary floating point for the claims at hand; the model uses
`ℚ`.  Python's built-in `round` rounds half to even. -/

/-- Python `round` on an exact rational: round half to even. -/
def pyRound (q : ℚ) : ℤ :=
  let f := ⌊q⌋
  let r := q - f
  if r < 1/2 then f
  else if 1/2 < r then f + 1
  else if f % 2 = 0 then f else f + 1

/-- `stride = 1; if max_fps and fps > max_fps: stride = max(1, round(fps
/ max_fps))` (lines 156-158). -/
def strideOf (fps : ℚ) (maxFps : ℕ) : ℤ :=
  if maxFps ≠ 0 ∧ (maxFps : ℚ) < fps then max 1 (pyRound (fps / maxFps))
  else 1

/-- `output_fps = fps / stride` (line 159). -/
def outputFps (fps : ℚ) (maxFps : ℕ) : ℚ :=
  fps / (strideOf fps maxFps : ℚ)

/-- One `while True` iteration (lines 189-206) on a source with `r`
not-yet-decoded frames left: when `stride > 1` first perform
`stride - 1` cheap `grab()` advances, breaking out if one fails; then
`read()` the next frame, breaking out if none is left; otherwise one
frame is blurred and written and the loop continues.  Returns the number
of frames the loop writes. -/
def loopFrames (stride : Nat) (r : Nat) : Nat :=
  if h1 : 1 < stride then
    if h2 : stride - 1 ≤ r then
      if h3 : r - (stride - 1) = 0 then 0
      else loopFrames stride (r - (stride - 1) - 1) + 1
    else 0
  else
    if h4 : r = 0 then 0 else loopFrames stride (r - 1) + 1
termination_by r
decreasing_by all_goals omega

/-- Total frames written for a source of `n` decodable frames: the
first frame is read before the loop (`ret, frame = cap.read()`, lines
149-152, raising when the source has no readable frame — modelled as
`none`), written once, and the loop writes the rest. -/
def framesWritten (n : Nat) (stride : Nat) : Option Nat :=
  if n = 0 then none else some (loopFrames stride (n - 1) + 1)

theorem loopFrames_unfold (stride r : Nat) (h : 1 ≤ stride) :
    loopFrames stride r =
      if stride ≤ r then loopFrames stride (r - stride) + 1 else 0 := by
  rw [loopFrames]
  rcases Nat.lt_or_ge 1 stride with h1 | h1
  · rw [dif_pos h1]
    rcases Nat.lt_or_ge r (stride - 1) with h2 | h2
    · rw [dif_neg (by omega), if_neg (by omega)]
    · rw [dif_pos h2]
      rcases eq_or_ne (r - (stride - 1)) 0 with h3 | h3
      · rw [dif_pos h3, if_neg (by omega)]
      · rw [dif_neg h3, if_pos (by omega)]
        congr 2
        omega
  · have hs : stride = 1 := by omega
    subst hs
    rw [dif_neg (by omega)]
    rcases eq_or_ne r 0 with h4 | h4
    · rw [dif_pos h4, if_neg (by omega)]
    · rw [dif_neg h4, if_pos (by omega)]

/-- The loop writes exactly `⌊r / stride⌋` frames. -/
theorem loopFrames_eq_div (stride : Nat) (h : 1 ≤ stride) :
    ∀ r : Nat, loopFrames stride r = r / stride := by
  intro r
  induction r using Nat.strong_induction_on with
  | _ r ih =>
    rw [loopFrames_unfold stride r h, Nat.div_eq]
    rcases Nat.lt_or_ge r stride with hr | hr
    · rw [if_neg (by omega), if_neg (by omega)]
    · rw [if_pos (by omega), if_pos (by omega), ih (r - stride) (by omega)]

/-- C4: with source fps `24` and `max_fps = 8`, the stride is
`round(24/8) = 3` and the reported `output_fps` is `24/3 = 8`; the
stride is always at least `1` whenever the cap is active; and an
`n`-frame source yields `1 + ⌊(n-1)/3⌋` written frames, which is within
`±1` of `⌊n/3⌋`. -/
theorem videoStrideLaw :
    strideOf 24 8 = 3 ∧
    outputFps 24 8 = 8 ∧
    (∀ (fps : ℚ) (maxFps : ℕ), maxFps ≠ 0 → (maxFps : ℚ) < fps →
      1 ≤ strideOf fps maxFps) ∧
    (∀ n : Nat, 1 ≤ n →
      ∃ k, framesWritten n 3 = some k ∧ n / 3 ≤ k ∧ k ≤ n / 3 + 1) := by
  have h1 : strideOf 24 8 = 3 := by
    rw [strideOf, if_pos (by norm_num)]
    have h24 : (24 : ℚ) / ((8 : ℕ) : ℚ) = 3 := by norm_num
    rw [h24]
    simp only [pyRound]
    norm_num
  refine ⟨h1, ?_, ?_, ?_⟩
  · rw [outputFps, h1]
    norm_num
  · intro fps maxFps h1 h2
    rw [strideOf, if_pos ⟨h1, h2⟩]
    exact le_max_left 1 _
  · intro n hn
    refine ⟨loopFrames 3 (n - 1) + 1, ?_, ?_, ?_⟩
    · rw [framesWritten, if_neg (by omega)]
    · rw [loopFrames_eq_div 3 (by omega)]
      omega
    · rw [loopFrames_eq_div 3 (by omega)]
      omega

/-- Witness for C4: the stride-law theorem applied at a 7-frame source
(3 frames written, `⌊7/3⌋ = 2`). -/
theorem videoStrideLaw_witness :
    (8 : ℕ) ≠ 0 ∧ ((8 : ℕ) : ℚ) < 24 ∧ (1 : ℕ) ≤ 7 ∧
    (∃ k, framesWritten 7 3 = some k ∧ 7 / 3 ≤ k ∧ k ≤ 7 / 3 + 1) :=
  ⟨by decide, by norm_num, by decide, videoStrideLaw.2.2.2 7 (by decide)⟩

/-! ## Storage cleanup

Source: `storage/cleanup.py`.  `purge_old_files(storage_dir, ttl_seconds)`
walks the storage tree, unlinks every file whose modification age
`now - mtime` is at least `ttl_seconds` (counting each successful unlink,
and swallowing `FileNotFoundError` when a file vanished concurrently),
then attempts `rmdir` on every directory in reverse-sorted order,
swallowing the `OSError` raised for non-empty directories, and returns
the count of removed files.  Artifacts live one directory level below
the root (`storage_root/<job_id>/<file>`, see `tasks.py`), so the tree
is modelled as a list of files tagged with their job directory plus the
list of job directories.  A file's `vanished` flag models a concurrent
deletion that makes its `unlink` raise `FileNotFoundError`. -/

structure StoredFile where
  dir : String
  name : String
  mtime : Int
  vanished : Bool
deriving DecidableEq, Repr

/-- `age = now - path.stat().st_mtime; age >= ttl_seconds` (lines 17-18). -/
def isExpired (now ttl : Int) (f : StoredFile) : Bool :=
  decide (ttl ≤ now - f.mtime)

/-- The file pass (lines 14-23): unlink expired files, counting each
successful unlink and tolerating a concurrently vanished file; returns
the count and the files still on disk. -/
def purgeFilePass (now ttl : Int) : List StoredFile → Nat × List StoredFile
  | [] => (0, [])
  | f :: rest =>
    let r := purgeFilePass now ttl rest
    if isExpired now ttl f then
      if f.vanished then (r.1, r.2) else (r.1 + 1, r.2)
    else (r.1, f :: r.2)

/-- The directory pass (lines 25-30): `rmdir` succeeds exactly on the
directories that hold no remaining file; the rest raise `OSError`, which
is swallowed, leaving them in place. -/
def purgeDirPass (dirs : List String) (survivors : List StoredFile) :
    List String :=
  dirs.filter (fun d => survivors.any (fun f => f.dir == d))

/-- `purge_old_files(storage_dir, ttl_seconds)` (lines 7-32), including
the early return when the storage root does not exist (lines 10-11).
Returns the removal count together with the surviving files and
directories. -/
def purgeOldFiles (rootExists : Bool) (now ttl : Int)
    (files : List StoredFile) (dirs : List String) :
    Nat × List StoredFile × List String :=
  if rootExists then
    let r := purgeFilePass now ttl files
    (r.1, r.2, purgeDirPass dirs r.2)
  else (0, files, dirs)

theorem purgeFilePass_eq (now ttl : Int) :
    ∀ files : List StoredFile,
      purgeFilePass now ttl files =
        ((files.filter
            (fun f => isExpired now ttl f && !f.vanished)).length,
          files.filter (fun f => !isExpired now ttl f))
  | [] => rfl
  | f :: rest => by
    rw [purgeFilePass, purgeFilePass_eq now ttl rest]
    rcases hb : isExpired now ttl f with _ | _
    · simp [List.filter_cons, hb]
    · rcases hv : f.vanished with _ | _ <;> simp [List.filter_cons, hb, hv]

/-- C7: on an existing storage tree, `purge_old_files` removes exactly
the files whose modification age is at least `ttl_seconds`, returns
their count (not counting a file that vanished concurrently before its
unlink, which is tolerated rather than an error), keeps every younger
file, and keeps exactly the directories that still hold a remaining
file; in particular one expired plus one fresh file in a job directory
yields count `1`, the fresh file surviving, and the directory kept. -/
theorem purgeOldFiles_spec :
    (∀ (now ttl : Int) (files : List StoredFile) (dirs : List String),
      purgeOldFiles true now ttl files dirs =
        ((files.filter
            (fun f => isExpired now ttl f && !f.vanished)).length,
          files.filter (fun f => !isExpired now ttl f),
          dirs.filter (fun d =>
            (files.filter (fun f => !isExpired now ttl f)).any
              (fun f => f.dir == d)))) ∧
    purgeOldFiles true 10000 60
        [⟨"job", "old.jpg", 6400, false⟩, ⟨"job", "new.jpg", 10000, false⟩]
        ["job"] =
      (1, [⟨"job", "new.jpg", 10000, false⟩], ["job"]) := by
  constructor
  · intro now ttl files dirs
    rw [purgeOldFiles, if_pos rfl, purgeFilePass_eq now ttl files]
    rfl
  · decide

/-! ## Cleanup loop wiring

Source: `storage/cleanup.py`, `cleanup_loop` (lines 35-51), and the
application lifespan in `api/app.py` (lines 51-64), which decides
whether the loop is started at all: the cleanup task is created only
when `settings.storage_cleanup_interval_minutes > 0`; with a zero
configured interval no cleanup task exists, so `purge_old_files` is
never called from `cleanup_loop`.  The loop itself is modelled by the
number of `purge_old_files` calls it makes within `fuel` iterations
given the schedule `stopSet i` of observations of
`stop_event.is_set()`. -/

def loopSweeps (stopSet : Nat → Bool) : Nat → Nat → Nat
  | _, 0 => 0
  | i, fuel + 1 => if stopSet i then 0 else loopSweeps stopSet (i + 1) fuel + 1

/-- The lifespan wiring of `app.py` lines 53-64: the number of
`purge_old_files` calls made on behalf of a configured cleanup interval
(in minutes), observing the stop schedule for at most `fuel` loop
iterations. -/
def lifespanCleanupSweeps (intervalMinutes : Nat) (stopSet : Nat → Bool)
    (fuel : Nat) : Nat :=
  if 0 < intervalMinutes then loopSweeps stopSet 0 fuel else 0

/-- C8: with a configured sweep interval of zero the cleanup loop is
never started, hence no sweep (`purge_old_files` call) is ever performed
by `cleanup_loop`, whatever the stop schedule and however long the
application runs. -/
theorem zero_interval_never_sweeps (stopSet : Nat → Bool) (fuel : Nat) :
    lifespanCleanupSweeps 0 stopSet fuel = 0 := by
  rw [lifespanCleanupSweeps, if_neg (lt_irrefl 0)]

/-! ## Result fetching and one-shot consumption

Source: `api/routes.py`, `fetch_result` (lines 425-502) with
`_load_results` (134-149), `_load_video_result` (152-163) and
`storage/filesystem.py` `cleanup_paths` (20-35).  The broker's Redis
result backend keeps a task's result after it has been read, so
successive fetches of the same id see the same `TaskResult`; what
changes between fetches is the filesystem, from which the artifact bytes
are loaded and then deleted.  The tasks return lists of items
(`tasks.py`), an item being tagged `"type": "video"` for the video
pipeline; file contents are abstract byte lists addressed by path. -/

abbrev Fs := List (String × List Nat)

/-- `Path(item["path"]).exists()` / `read_bytes`: look a path up in the
modelled filesystem. -/
def fsLookup (fs : Fs) (p : String) : Option (List Nat) :=
  (fs.find? (fun e => e.1 == p)).map Prod.snd

/-- `cleanup_paths`: unlink each path, tolerating already-missing files
(the parent-directory sweep only affects empty directories and no file
contents). -/
def cleanupPaths (fs : Fs) (paths : List String) : Fs :=
  fs.filter (fun e => !(paths.contains e.1))

structure ResultItem where
  isVideo : Bool
  filename : String
  contentType : String
  path : String
deriving DecidableEq, Repr

structure TaskResult where
  isErr : Bool
  returnValue : List ResultItem
deriving DecidableEq, Repr

/-- `_load_results` (lines 134-149): read every item's file, raising
`ResultMissingError` (modelled `none`) as soon as one path no longer
exists. -/
def loadResults (fs : Fs) : List ResultItem →
    Option (List (ResultItem × List Nat))
  | [] => some []
  | item :: rest =>
    match fsLookup fs item.path with
    | none => none
    | some bytes => (loadResults fs rest).map (fun l => (item, bytes) :: l)

/-- The HTTP-visible outcomes of `GET /results/{task_id}`: the 202
pending body, the 500 `task_failed` and `result_payload_missing`
errors, the 410 `result_missing` error (class `ResultMissingError`), and
the three success shapes (raw video bytes, one raw image, a zip
archive). -/
inductive FetchOutcome where
  | pending
  | taskFailed
  | resultPayloadMissing
  | resultMissing
  | videoBytes (bytes : List Nat) (contentType : String)
  | singleImage (bytes : List Nat) (contentType : String)
  | zipArchive (entries : List (String × List Nat))
deriving DecidableEq, Repr

/-- `fetch_result` (lines 425-502): pending when the backend has no
result; `TaskFailedError` for an errored task; payload-missing for an
empty return value; otherwise load the artifacts from disk (yielding
`ResultMissingError` when they are gone), delete them, and answer with
the bytes — a lone video as raw video, one image raw, several images
zipped. -/
def fetchResult (backend : Option TaskResult) (fs : Fs) :
    FetchOutcome × Fs :=
  match backend with
  | none => (.pending, fs)
  | some res =>
    if res.isErr then (.taskFailed, fs)
    else
      match res.returnValue with
      | [] => (.resultPayloadMissing, fs)
      | first :: rest =>
        if first.isVideo then
          match fsLookup fs first.path with
          | none => (.resultMissing, fs)
          | some bytes =>
            (.videoBytes bytes first.contentType,
              cleanupPaths fs [first.path])
        else
          match loadResults fs (first :: rest) with
          | none => (.resultMissing, fs)
          | some items =>
            let fs2 := cleanupPaths fs ((first :: rest).map (fun i => i.path))
            match items with
            | [single] => (.singleImage single.2 single.1.contentType, fs2)
            | _ => (.zipArchive (items.map (fun e => (e.1.filename, e.2))), fs2)

/-- Is the outcome an artifact delivery (as opposed to pending or an
error)? -/
def FetchOutcome.isArtifacts : FetchOutcome → Bool
  | .videoBytes _ _ => true
  | .singleImage _ _ => true
  | .zipArchive _ => true
  | _ => false

theorem fsLookup_cleanupPaths_of_mem (fs : Fs) (paths : List String)
    (p : String) (hp : p ∈ paths) :
    fsLookup (cleanupPaths fs paths) p = none := by
  rw [fsLookup]
  rcases h : (cleanupPaths fs paths).find? (fun e => e.1 == p) with _ | e
  · rw [h]
    rfl
  · exfalso
    have hmem := List.mem_of_find?_eq_some h
    have hpred := List.find?_some h
    rw [cleanupPaths, List.mem_filter] at hmem
    have : e.1 = p := by simpa using hpred
    rw [this] at hmem
    simpa [hp] using hmem.2

theorem loadResults_isSome (fs : Fs) :
    ∀ items : List ResultItem,
      (∀ i ∈ items, fsLookup fs i.path ≠ none) →
      ∃ l, loadResults fs items = some l
  | [], _ => ⟨[], rfl⟩
  | item :: rest, h => by
    rcases hb : fsLookup fs item.path with _ | bytes
    · exact absurd hb (h item (by simp))
    · obtain ⟨l, hl⟩ :=
        loadResults_isSome fs rest (fun i hi => h i (by simp [hi]))
      exact ⟨(item, bytes) :: l, by rw [loadResults, hb, hl]; rfl⟩

/-- C5: fetching an id with no backend result yet answers Pending;
fetching a successfully completed job whose artifacts are on disk
delivers the artifacts and deletes their files, and an immediately
repeated fetch of the same id answers the `result_missing` condition —
an outcome distinct from Pending and from every other error shape, not
a silent empty success. -/
theorem fetch_once_then_missing :
    (∀ fs : Fs, fetchResult none fs = (.pending, fs)) ∧
    (∀ (res : TaskResult) (fs : Fs),
      res.isErr = false → res.returnValue ≠ [] →
      (∀ i ∈ res.returnValue, fsLookup fs i.path ≠ none) →
      (fetchResult (some res) fs).1.isArtifacts = true ∧
      (fetchResult (some res) fs).1 ≠ .pending ∧
      (fetchResult (some res) fs).1 ≠ .resultMissing ∧
      (fetchResult (some res) (fetchResult (some res) fs).2).1 =
        .resultMissing) ∧
    (FetchOutcome.resultMissing ≠ .pending) := by
  refine ⟨fun fs => rfl, ?_, by decide⟩
  intro res fs herr hne hdisk
  rcases hrv : res.returnValue with _ | ⟨first, rest⟩
  · exact absurd hrv hne
  rcases hv : first.isVideo with _ | _
  · -- image branch: `_load_results` over all items
    obtain ⟨l, hl⟩ := loadResults_isSome fs (first :: rest)
      (by rw [← hrv]; exact hdisk)
    have hmiss : loadResults
        (cleanupPaths fs (first.path :: rest.map (fun i => i.path)))
        (first :: rest) = none := by
      rw [loadResults, fsLookup_cleanupPaths_of_mem _ _ _ (by simp)]
    have h2 : fetchResult (some res)
        (cleanupPaths fs ((first :: rest).map (fun i => i.path))) =
        (.resultMissing,
          cleanupPaths fs ((first :: rest).map (fun i => i.path))) := by
      simp [fetchResult, herr, hrv, hv, hmiss]
    rcases l with _ | ⟨s, l2⟩
    · have h1 : fetchResult (some res) fs =
          (.zipArchive [],
            cleanupPaths fs ((first :: rest).map (fun i => i.path))) := by
        simp [fetchResult, herr, hrv, hv, hl]
      rw [h1, h2]
      exact ⟨rfl, by simp, by simp, rfl⟩
    rcases l2 with _ | ⟨s2, l3⟩
    · have h1 : fetchResult (some res) fs =
          (.singleImage s.2 s.1.contentType,
            cleanupPaths fs ((first :: rest).map (fun i => i.path))) := by
        simp [fetchResult, herr, hrv, hv, hl]
      rw [h1, h2]
      exact ⟨rfl, by simp, by simp, rfl⟩
    · have h1 : fetchResult (some res) fs =
          (.zipArchive ((s :: s2 :: l3).map (fun e => (e.1.filename, e.2))),
            cleanupPaths fs ((first :: rest).map (fun i => i.path))) := by
        simp [fetchResult, herr, hrv, hv, hl]
      rw [h1, h2]
      exact ⟨rfl, by simp, by simp, rfl⟩
  · -- video branch: `_load_video_result` on the first item
    have hfd := hdisk first (by rw [hrv]; simp)
    rcases hb : fsLookup fs first.path with _ | bytes
    · exact absurd hb hfd
    have hmiss : fsLookup (cleanupPaths fs [first.path]) first.path =
        none := fsLookup_cleanupPaths_of_mem _ _ _ (by simp)
    have h1 : fetchResult (some res) fs =
        (.videoBytes bytes first.contentType,
          cleanupPaths fs [first.path]) := by
      simp [fetchResult, herr, hrv, hv, hb]
    have h2 : fetchResult (some res) (cleanupPaths fs [first.path]) =
        (.resultMissing, cleanupPaths fs [first.path]) := by
      simp [fetchResult, herr, hrv, hv, hmiss]
    rw [h1, h2]
    exact ⟨rfl, by simp, by simp, rfl⟩

/-- Witness for C5: one completed video job with its artifact on disk is
delivered once and reports `result_missing` on the second fetch. -/
theorem fetch_once_then_missing_witness :
    ((⟨false, [⟨true, "v_blurred.mp4", "video/mp4",
        "storage/j1/v_blurred.mp4"⟩]⟩ : TaskResult).isErr = false ∧
      (⟨false, [⟨true, "v_blurred.mp4", "video/mp4",
        "storage/j1/v_blurred.mp4"⟩]⟩ : TaskResult).returnValue ≠ [] ∧
      (∀ i ∈ (⟨false, [⟨true, "v_blurred.mp4", "video/mp4",
          "storage/j1/v_blurred.mp4"⟩]⟩ : TaskResult).returnValue,
        fsLookup [("storage/j1/v_blurred.mp4", [7, 7, 7])] i.path ≠
          none)) ∧
    (fetchResult (some ⟨false, [⟨true, "v_blurred.mp4", "video/mp4",
        "storage/j1/v_blurred.mp4"⟩]⟩)
      [("storage/j1/v_blurred.mp4", [7, 7, 7])]).1.isArtifacts = true ∧
    (fetchResult (some ⟨false, [⟨true, "v_blurred.mp4", "video/mp4",
        "storage/j1/v_blurred.mp4"⟩]⟩)
      (fetchResult (some ⟨false, [⟨true, "v_blurred.mp4", "video/mp4",
          "storage/j1/v_blurred.mp4"⟩]⟩)
        [("storage/j1/v_blurred.mp4", [7, 7, 7])]).2).1 =
      .resultMissing := by
  have h := (fetch_once_then_missing.2.1
    (⟨false, [⟨true, "v_blurred.mp4", "video/mp4",
      "storage/j1/v_blurred.mp4"⟩]⟩ : TaskResult)
    [("storage/j1/v_blurred.mp4", [7, 7, 7])]
    (by decide) (by decide) (by decide))
  exact ⟨⟨by decide, by decide, by decide⟩, h.1, h.2.2.2⟩

/-! ## Video pipeline: external-tool fallback

Source: `video_service.py`, `_mux_audio` (lines 34-90), `_transcode_video`
(93-128) and the tail of `process_video_blur` (223-255).  `_mux_audio`
and `_transcode_video` return `False` when `shutil.which("ffmpeg")`
finds nothing or the spawned process exits nonzero, `True` on success;
`process_video_blur` then either unlinks the temporary muted video
(success) or moves it over `output_path` via `temp_output.replace`
(failure), and unconditionally returns the
`{"frames", "fps", "duration_seconds"}` dictionary. -/

structure FfmpegEnv where
  present : Bool
  muxExit : Int
  transcodeExit : Int
deriving DecidableEq, Repr

/-- `_mux_audio` outcome: `False` iff ffmpeg is absent or exits
nonzero. -/
def muxAudio (env : FfmpegEnv) : Bool :=
  env.present && decide (env.muxExit = 0)

/-- `_transcode_video` outcome: `False` iff ffmpeg is absent or exits
nonzero. -/
def transcodeVideo (env : FfmpegEnv) : Bool :=
  env.present && decide (env.transcodeExit = 0)

/-- What ends up at `output_path` when `process_video_blur` returns. -/
inductive OutputKind where
  | muxed
  | transcoded
  | muted
deriving DecidableEq, Repr

structure VideoMeta where
  frames : Nat
  fps : ℚ
  durationSeconds : ℚ
deriving DecidableEq, Repr

/-- The tail of `process_video_blur` (lines 223-255): pick the muxed,
transcoded or fallback muted output (the temporary file is consumed in
every branch — unlinked on success, renamed onto `output_path` on
failure) and return the metadata dictionary
`{"frames": frames, "fps": output_fps, "duration_seconds": frames /
output_fps if output_fps else 0}`. -/
def finishVideo (env : FfmpegEnv) (preserveAudio transcodeH264 : Bool)
    (frames : Nat) (ofps : ℚ) : OutputKind × VideoMeta :=
  let kind :=
    if preserveAudio then
      if muxAudio env then OutputKind.muxed else OutputKind.muted
    else if transcodeH264 then
      if transcodeVideo env then OutputKind.transcoded else OutputKind.muted
    else OutputKind.muted
  (kind, ⟨frames, ofps, if ofps ≠ 0 then (frames : ℚ) / ofps else 0⟩)

/-- C6: failure of the external muxer or transcoder — ffmpeg absent or a
nonzero exit — never fails the pipeline: whichever external step the
flags select, on its failure the muted untranscoded video is moved to
`output_path` and the success metadata (`frames`, `fps`,
`duration_seconds`) is still returned; indeed the metadata is returned
for every environment whatsoever. -/
theorem externalFailure_nonfatal (env : FfmpegEnv)
    (preserveAudio transcodeH264 : Bool) (frames : Nat) (ofps : ℚ)
    (hfail : env.present = false ∨ (env.muxExit ≠ 0 ∧ env.transcodeExit ≠ 0)) :
    (muxAudio env = false ∧ transcodeVideo env = false) ∧
    (preserveAudio = true →
      (finishVideo env preserveAudio transcodeH264 frames ofps).1 =
        .muted) ∧
    (preserveAudio = false → transcodeH264 = true →
      (finishVideo env preserveAudio transcodeH264 frames ofps).1 =
        .muted) ∧
    (finishVideo env preserveAudio transcodeH264 frames ofps).2 =
      ⟨frames, ofps, if ofps ≠ 0 then (frames : ℚ) / ofps else 0⟩ := by
  have hm : muxAudio env = false := by
    rw [muxAudio]
    rcases hfail with h | h
    · rw [h]; rfl
    · simp [h.1]
  have ht : transcodeVideo env = false := by
    rw [transcodeVideo]
    rcases hfail with h | h
    · rw [h]; rfl
    · simp [h.2]
  refine ⟨⟨hm, ht⟩, ?_, ?_, rfl⟩
  · intro hpa
    rw [finishVideo]
    simp only [hpa, if_true, hm, Bool.false_eq_true, if_false]
  · intro hpa htc
    rw [finishVideo]
    simp only [hpa, htc, Bool.false_eq_true, if_false, if_true, ht]

/-- Witness for C6: ffmpeg exiting `1` on both commands degrades a
`preserve_audio` run to the muted fallback while the metadata for a
90-frame, 30 fps output survives. -/
theorem externalFailure_nonfatal_witness :
    ((⟨true, 1, 1⟩ : FfmpegEnv).present = false ∨
      ((⟨true, 1, 1⟩ : FfmpegEnv).muxExit ≠ 0 ∧
        (⟨true, 1, 1⟩ : FfmpegEnv).transcodeExit ≠ 0)) ∧
    (true = true →
      (finishVideo ⟨true, 1, 1⟩ true true 90 30).1 = .muted) ∧
    (finishVideo ⟨true, 1, 1⟩ true true 90 30).2 =
      ⟨90, 30, if (30 : ℚ) ≠ 0 then ((90 : Nat) : ℚ) / 30 else 0⟩ := by
  have h := externalFailure_nonfatal ⟨true, 1, 1⟩ true true 90 30
    (Or.inr ⟨by decide, by decide⟩)
  exact ⟨Or.inr ⟨by decide, by decide⟩, h.2.1, h.2.2.2⟩

/-! ## Anonymizer: which pixels `apply_blur` touches

Source: `blur_service.py`, `apply_blur` (lines 165-181) and
`_apply_pixelated_ellipse` (lines 48-73).  A frame is modelled as a
total pixel function on `Nat × Nat` coordinates (row, column) together
with its height/width bounds; the OpenCV pixelate/soften/ellipse-mask
composite, which only determines the *values* written inside the ROI
and never its extent, is an arbitrary parameter `patch`.  The final
statement `img[y:y+h, x:x+w] = cv2.add(bg, masked)` writes exactly the
ROI rectangle (the safety theorem below shows the rectangle always fits
inside the frame, which is also why the numpy slice assignment is shape
correct).  `pad_x = int(w * 0.2)` is `w / 5` rounded toward zero, exact
for every coordinate a real frame can have; the model uses `w / 5` on
`Int` (floor division, equal to truncation for the nonnegative widths
involved). -/

/-- The value the OpenCV composite would store at pixel `(r, c)` of the
ROI at `(x, y, w, h)` with block size `block`: treated as an arbitrary
function, since only the write *region* is claimed. -/
def PatchFun : Type :=
  (Nat → Nat → Nat) → Nat → Nat → Nat → Nat → Nat → Nat → Nat → Nat

/-- `_apply_pixelated_ellipse(img, x, y, w, h, block)`: a no-op when the
ROI slice `img[y:y+h, x:x+w]` is empty (`roi.size == 0`, lines 50-52),
otherwise it overwrites exactly that rectangle with composite values. -/
def applyPixelatedEllipse (patch : PatchFun) (wFrame hFrame : Nat)
    (img : Nat → Nat → Nat) (x y w h block : Nat) (r c : Nat) : Nat :=
  if x < wFrame ∧ y < hFrame ∧ 0 < w ∧ 0 < h then
    if y ≤ r ∧ r < y + h ∧ x ≤ c ∧ c < x + w then
      patch img x y w h block r c
    else img r c
  else img r c

/-- The per-box geometry of `apply_blur` (lines 170-178): pad by
`int(0.2 * side)`, clamp to the frame, and force a positive size with
`max(1, ·)`. -/
structure Region where
  x0 : Nat
  y0 : Nat
  aw : Nat
  ah : Nat
  block : Nat
deriving DecidableEq, Repr

def clampRegion (wFrame hFrame : Nat) (b : Box) : Region :=
  let px := b.w / 5
  let py := b.h / 5
  let x0 := max 0 (b.x - px)
  let y0 := max 0 (b.y - py)
  let x1 := min (wFrame : Int) (b.x + b.w + px)
  let y1 := min (hFrame : Int) (b.y + b.h + py)
  let aw := max 1 (x1 - x0)
  let ah := max 1 (y1 - y0)
  ⟨x0.toNat, y0.toNat, aw.toNat, ah.toNat, (max 12 (min aw ah / 8)).toNat⟩

/-- `apply_blur(img, faces)` (lines 165-181): `return img` unchanged on
an empty face list, otherwise blur each padded-and-clamped region in
turn. -/
def applyBlur (patch : PatchFun) (wFrame hFrame : Nat)
    (img : Nat → Nat → Nat) (faces : List Box) : Nat → Nat → Nat :=
  faces.foldl (fun acc b =>
    let rg := clampRegion wFrame hFrame b
    applyPixelatedEllipse patch wFrame hFrame acc
      rg.x0 rg.y0 rg.aw rg.ah rg.block) img

/-- Membership of pixel `(r, c)` in the padded box of `b`, clamped to a
`wFrame × hFrame` frame — the spec's "padded by 20% per side and
clamped to frame bounds" region. -/
def inPaddedBox (wFrame hFrame : Nat) (b : Box) (r c : Nat) : Prop :=
  max 0 (b.x - b.w / 5) ≤ (c : Int) ∧
    (c : Int) < min (wFrame : Int) (b.x + b.w + b.w / 5) ∧
    max 0 (b.y - b.h / 5) ≤ (r : Int) ∧
    (r : Int) < min (hFrame : Int) (b.y + b.h + b.h / 5)

instance (wFrame hFrame : Nat) (b : Box) (r c : Nat) :
    Decidable (inPaddedBox wFrame hFrame b r c) :=
  inferInstanceAs (Decidable (_ ∧ _ ∧ _ ∧ _))

/-- The clamped padded box of `b` is nonempty (it still meets the
frame). -/
def paddedMeetsFrame (wFrame hFrame : Nat) (b : Box) : Prop :=
  max 0 (b.x - b.w / 5) < min (wFrame : Int) (b.x + b.w + b.w / 5) ∧
    max 0 (b.y - b.h / 5) < min (hFrame : Int) (b.y + b.h + b.h / 5)

instance (wFrame hFrame : Nat) (b : Box) :
    Decidable (paddedMeetsFrame wFrame hFrame b) :=
  inferInstanceAs (Decidable (_ ∧ _))

/-- An all-zero frame and a constant composite, used to exhibit the
frame effect of a box lying wholly outside the frame. -/
def zeroImg : Nat → Nat → Nat := fun _ _ => 0

def onePatch : PatchFun := fun _ _ _ _ _ _ _ _ => 1

/-- Counterexample to C3 as stated: for the box `(-1000, 10, 10, 10)` on
a `100 × 100` frame the padded box `[-1002, -988) × [8, 22)` clamps to
emptiness, yet `apply_blur` — via `adjusted_w = max(1, x1 - x0)` — still
overwrites the one-pixel-wide strip `{8..21} × {0}`: pixel `(15, 0)`
lies strictly outside every padded box but is modified. -/
theorem applyBlur_touches_outside_padded_box :
    ¬ inPaddedBox 100 100 ⟨-1000, 10, 10, 10⟩ 15 0 ∧
    applyBlur onePatch 100 100 zeroImg [⟨-1000, 10, 10, 10⟩] 15 0 ≠
      zeroImg 15 0 := by
  constructor
  · intro h
    rcases h with ⟨_, h2, _, _⟩
    revert h2
    decide
  · decide

theorem applyPixelatedEllipse_untouched (patch : PatchFun)
    (wFrame hFrame : Nat) (img : Nat → Nat → Nat) (b : Box) (r c : Nat)
    (hne : paddedMeetsFrame wFrame hFrame b)
    (hout : ¬ inPaddedBox wFrame hFrame b r c) :
    applyPixelatedEllipse patch wFrame hFrame img
      (clampRegion wFrame hFrame b).x0 (clampRegion wFrame hFrame b).y0
      (clampRegion wFrame hFrame b).aw (clampRegion wFrame hFrame b).ah
      (clampRegion wFrame hFrame b).block r c = img r c := by
  rcases hne with ⟨hnx, hny⟩
  rw [applyPixelatedEllipse]
  split_ifs with hguard hwrite
  · exfalso
    apply hout
    simp only [clampRegion] at hwrite
    exact ⟨by omega, by omega, by omega, by omega⟩
  · rfl
  · rfl

/-- If a pixel's value was changed by `_apply_pixelated_ellipse`, the
ROI was nonempty and the pixel lies inside the ROI rectangle. -/
theorem applyPixelatedEllipse_changed (patch : PatchFun)
    (wFrame hFrame : Nat) (img : Nat → Nat → Nat) (x y w h block r c : Nat)
    (hch : applyPixelatedEllipse patch wFrame hFrame img x y w h block r c ≠
      img r c) :
    (x < wFrame ∧ y < hFrame ∧ 0 < w ∧ 0 < h) ∧
      y ≤ r ∧ r < y + h ∧ x ≤ c ∧ c < x + w := by
  rw [applyPixelatedEllipse] at hch
  split_ifs at hch with hguard hwrite
  · exact ⟨hguard, hwrite⟩
  · exact absurd rfl hch
  · exact absurd rfl hch

/-- C3 (amended): `apply_blur` leaves the frame unchanged on an empty
box list, and — provided each box's padded region still meets the frame
— modifies only pixels inside the union of the padded-and-clamped
boxes; the proviso is forced by `applyBlur_touches_outside_padded_box`:
a box whose padded region lies wholly outside the frame degenerately
overwrites a one-pixel-wide clamped strip at the frame edge. -/
theorem applyBlur_outside_padded_untouched :
    (∀ (patch : PatchFun) (wFrame hFrame : Nat) (img : Nat → Nat → Nat),
      applyBlur patch wFrame hFrame img [] = img) ∧
    (∀ (patch : PatchFun) (wFrame hFrame : Nat) (img : Nat → Nat → Nat)
      (faces : List Box) (r c : Nat),
      (∀ b ∈ faces, paddedMeetsFrame wFrame hFrame b) →
      (∀ b ∈ faces, ¬ inPaddedBox wFrame hFrame b r c) →
      applyBlur patch wFrame hFrame img faces r c = img r c) := by
  constructor
  · intro patch wFrame hFrame img
    rfl
  · intro patch wFrame hFrame img faces
    induction faces generalizing img with
    | nil => intro r c _ _; rfl
    | cons b rest ih =>
      intro r c hmeets hout
      have hstep := applyPixelatedEllipse_untouched patch wFrame hFrame img
        b r c (hmeets b (by simp)) (hout b (by simp))
      calc applyBlur patch wFrame hFrame img (b :: rest) r c
          = applyBlur patch wFrame hFrame
              (applyPixelatedEllipse patch wFrame hFrame img
                (clampRegion wFrame hFrame b).x0
                (clampRegion wFrame hFrame b).y0
                (clampRegion wFrame hFrame b).aw
                (clampRegion wFrame hFrame b).ah
                (clampRegion wFrame hFrame b).block) rest r c := rfl
        _ = applyPixelatedEllipse patch wFrame hFrame img
              (clampRegion wFrame hFrame b).x0
              (clampRegion wFrame hFrame b).y0
              (clampRegion wFrame hFrame b).aw
              (clampRegion wFrame hFrame b).ah
              (clampRegion wFrame hFrame b).block r c :=
            ih _ r c (fun x hx => hmeets x (by simp [hx]))
              (fun x hx => hout x (by simp [hx]))
        _ = img r c := hstep

/-- Witness for C3 (amended): a box overhanging the frame corner still
meets the frame after padding, and a pixel outside its padded box is
untouched. -/
theorem applyBlur_outside_padded_untouched_witness :
    (∀ b ∈ [(⟨-5, -5, 50, 50⟩ : Box)], paddedMeetsFrame 200 200 b) ∧
    (∀ b ∈ [(⟨-5, -5, 50, 50⟩ : Box)], ¬ inPaddedBox 200 200 b 199 199) ∧
    applyBlur onePatch 200 200 zeroImg [⟨-5, -5, 50, 50⟩] 199 199 =
      zeroImg 199 199 :=
  ⟨by decide, by decide,
    applyBlur_outside_padded_untouched.2 onePatch 200 200 zeroImg
      [⟨-5, -5, 50, 50⟩] 199 199 (by decide) (by decide)⟩

/-- The clamped ROI rectangle fits inside the frame whenever its corner
does: `aw` is either `x1 - x0` with `x1 ≤ wFrame`, or the degenerate
`1` forced by `max(1, ·)`, which still fits because `x0 < wFrame`. -/
theorem clampRegion_inFrame (wFrame hFrame : Nat) (b : Box) :
    ((clampRegion wFrame hFrame b).x0 < wFrame →
      (clampRegion wFrame hFrame b).x0 + (clampRegion wFrame hFrame b).aw ≤
        wFrame) ∧
    ((clampRegion wFrame hFrame b).y0 < hFrame →
      (clampRegion wFrame hFrame b).y0 + (clampRegion wFrame hFrame b).ah ≤
        hFrame) := by
  simp only [clampRegion]
  omega

/-- C9: `apply_blur` is safe for every box with positive width and
height, however far it overhangs the frame: (i) whenever the clamped
ROI passes the nonemptiness guard its rectangle lies entirely inside
the frame (so the numpy slice write is shape-correct and no pixel
outside the frame is addressed); (ii) an ROI that clamps to emptiness
is skipped, modifying nothing; (iii) consequently a whole `apply_blur`
pass only ever modifies pixels strictly inside the frame.  Totality is
by construction: `applyBlur` is a total function. -/
theorem applyBlur_safe :
    (∀ (wFrame hFrame : Nat) (b : Box), 0 < b.w → 0 < b.h →
      ((clampRegion wFrame hFrame b).x0 < wFrame →
        (clampRegion wFrame hFrame b).y0 < hFrame →
        (clampRegion wFrame hFrame b).x0 + (clampRegion wFrame hFrame b).aw ≤
            wFrame ∧
          (clampRegion wFrame hFrame b).y0 + (clampRegion wFrame hFrame b).ah ≤
            hFrame)) ∧
    (∀ (patch : PatchFun) (wFrame hFrame : Nat) (img : Nat → Nat → Nat)
      (x y w h block r c : Nat),
      ¬ (x < wFrame ∧ y < hFrame ∧ 0 < w ∧ 0 < h) →
      applyPixelatedEllipse patch wFrame hFrame img x y w h block r c =
        img r c) ∧
    (∀ (patch : PatchFun) (wFrame hFrame : Nat) (img : Nat → Nat → Nat)
      (faces : List Box) (r c : Nat),
      applyBlur patch wFrame hFrame img faces r c ≠ img r c →
      r < hFrame ∧ c < wFrame) := by
  refine ⟨?_, ?_, ?_⟩
  · intro wFrame hFrame b _ _ hx hy
    exact ⟨(clampRegion_inFrame wFrame hFrame b).1 hx,
      (clampRegion_inFrame wFrame hFrame b).2 hy⟩
  · intro patch wFrame hFrame img x y w h block r c hempty
    rw [applyPixelatedEllipse, if_neg hempty]
  · intro patch wFrame hFrame img faces
    induction faces generalizing img with
    | nil => intro r c hch; exact absurd rfl hch
    | cons b rest ih =>
      intro r c hch
      rcases eq_or_ne (applyBlur patch wFrame hFrame
          (applyPixelatedEllipse patch wFrame hFrame img
            (clampRegion wFrame hFrame b).x0
            (clampRegion wFrame hFrame b).y0
            (clampRegion wFrame hFrame b).aw
            (clampRegion wFrame hFrame b).ah
            (clampRegion wFrame hFrame b).block) rest r c)
          (applyPixelatedEllipse patch wFrame hFrame img
            (clampRegion wFrame hFrame b).x0
            (clampRegion wFrame hFrame b).y0
            (clampRegion wFrame hFrame b).aw
            (clampRegion wFrame hFrame b).ah
            (clampRegion wFrame hFrame b).block r c) with heq | hne2
      · -- the head box made the change
        have hstep : applyPixelatedEllipse patch wFrame hFrame img
            (clampRegion wFrame hFrame b).x0
            (clampRegion wFrame hFrame b).y0
            (clampRegion wFrame hFrame b).aw
            (clampRegion wFrame hFrame b).ah
            (clampRegion wFrame hFrame b).block r c ≠ img r c := by
          intro h
          exact hch ((heq.trans h))
        obtain ⟨⟨hx, hy, _, _⟩, hr1, hr2, hc1, hc2⟩ :=
          applyPixelatedEllipse_changed _ _ _ _ _ _ _ _ _ _ _ hstep
        have hb := clampRegion_inFrame wFrame hFrame b
        constructor
        · exact lt_of_lt_of_le hr2 (hb.2 hy)
        · exact lt_of_lt_of_le hc2 (hb.1 hx)
      · exact ih _ r c hne2

/-- Witness for C9: a box overhanging all four frame edges changes an
interior pixel, and the theorem bounds that pixel inside the `20 × 20`
frame; its clamped ROI also fits the frame. -/
theorem applyBlur_safe_witness :
    (0 : Int) < 50 ∧
    ((clampRegion 20 20 ⟨-5, -5, 50, 50⟩).x0 +
          (clampRegion 20 20 ⟨-5, -5, 50, 50⟩).aw ≤ 20 ∧
        (clampRegion 20 20 ⟨-5, -5, 50, 50⟩).y0 +
          (clampRegion 20 20 ⟨-5, -5, 50, 50⟩).ah ≤ 20) ∧
    applyBlur onePatch 20 20 zeroImg [⟨-5, -5, 50, 50⟩] 10 10 ≠
      zeroImg 10 10 ∧
    (10 < 20 ∧ 10 < 20) :=
  ⟨by decide,
    applyBlur_safe.1 20 20 ⟨-5, -5, 50, 50⟩ (by decide) (by decide)
      (by decide) (by decide),
    by decide,
    applyBlur_safe.2.2 onePatch 20 20 zeroImg [⟨-5, -5, 50, 50⟩] 10 10
      (by decide)⟩

/-! ## Worker task `blur_videos`: lifecycle of the uploaded input file

Source: `workers/tasks.py`, `blur_videos` (lines 66-116) with
`_safe_video_output_name` (23-28), and the file effects of
`process_video_blur` (`video_service.py` lines 160, 230-240): per
payload item the raw upload is written to `task_dir / input_name`, the
pipeline writes `output_path.with_suffix(".video.mp4")` and finishes
with that temporary either unlinked or renamed onto `output_path`, and
finally `input_path.unlink()` runs under `except FileNotFoundError:
pass`.  Filenames are modelled as character lists with `pathlib`'s
`name`/`stem`/`with_suffix` semantics (`name` strips trailing
separators and keeps the part after the last `/`; the suffix starts at
the last dot when that dot is neither first nor last in the name); the
fresh task directory (`_build_task_dir`) is a set of filenames,
initially empty. -/

/-- `Path(f).name`. -/
def pyName (f : List Char) : List Char :=
  ((f.reverse.dropWhile (fun ch => ch == '/')).takeWhile
    (fun ch => !(ch == '/'))).reverse

/-- Index of the last `.` in a name, if any. -/
def rfindDot : List Char → Option Nat
  | [] => none
  | ch :: cs =>
    match rfindDot cs with
    | some i => some (i + 1)
    | none => if ch = '.' then some 0 else none

/-- Where `Path(...)`'s suffix begins in the name `n` (its length when
there is no suffix): the last dot, provided it is neither the first nor
the last character. -/
def pySuffixStart (n : List Char) : Nat :=
  match rfindDot n with
  | some i => if 0 < i ∧ i + 1 < n.length then i else n.length
  | none => n.length

/-- `Path(...).stem` of a name. -/
def pyStem (n : List Char) : List Char := n.take (pySuffixStart n)

/-- `_safe_video_output_name(filename)` (tasks.py lines 23-28). -/
def safeVideoOutputName (filename : List Char) : List Char :=
  if filename = [] then ("blurred_video.mp4").toList
  else pyStem (pyName filename) ++ ("_blurred.mp4").toList

/-- `Path(filename or "upload").name` (tasks.py line 71). -/
def inputFileName (filename : List Char) : List Char :=
  pyName (if filename = [] then ("upload").toList else filename)

/-- `output_path.with_suffix(".video.mp4")` (video_service.py line
160). -/
def tempVideoName (filename : List Char) : List Char :=
  pyStem (safeVideoOutputName filename) ++ (".video.mp4").toList

/-- Creating a file in the task directory (`write_bytes` or the video
writer opening its output). -/
def fsInsert (s : List (List Char)) (n : List Char) : List (List Char) :=
  if n ∈ s then s else n :: s

/-- Unlinking a file, tolerating its absence. -/
def fsErase (s : List (List Char)) (n : List Char) : List (List Char) :=
  s.filter (fun m => !(m == n))

/-- The file effect of one `blur_videos` iteration (tasks.py lines
69-100): save the upload, run `process_video_blur` — which creates the
temporary muted video and ends every branch with it unlinked or renamed
onto the output path — then unlink the input, tolerating
`FileNotFoundError`. -/
def blurVideosStep (s : List (List Char)) (filename : List Char) :
    List (List Char) :=
  let s1 := fsInsert s (inputFileName filename)
  let s2 := fsInsert s1 (tempVideoName filename)
  let s3 := fsInsert (fsErase s2 (tempVideoName filename))
    (safeVideoOutputName filename)
  fsErase s3 (inputFileName filename)

/-- `blur_videos(items)` on its fresh task directory. -/
def blurVideos (items : List (List Char)) : List (List Char) :=
  items.foldl blurVideosStep []

theorem rfindDot_split :
    ∀ (n : List Char) (i : Nat), rfindDot n = some i →
      ∃ pre post, n = pre ++ '.' :: post ∧ pre.length = i
  | [], i => by intro h; simp [rfindDot] at h
  | ch :: cs, i => by
    intro h
    rw [rfindDot] at h
    rcases hcs : rfindDot cs with _ | j
    · rw [hcs] at h
      split_ifs at h with hch
      have h0 : (0 : Nat) = i := Option.some.inj h
      exact ⟨[], cs, by rw [hch]; rfl, h0⟩
    · rw [hcs] at h
      have hi : j + 1 = i := Option.some.inj h
      obtain ⟨pre, post, hsplit, hlen⟩ := rfindDot_split cs j hcs
      exact ⟨ch :: pre, post, by rw [hsplit]; rfl, by
        rw [List.length_cons, hlen, hi]⟩

/-- Appending a nonempty non-suffix-like tail to a name's stem never
reproduces the name: either the stem is the whole name (length clash)
or the name continues with the `.` of its suffix while the tail does
not start with one. -/
theorem pyStem_append_ne (n s : List Char) (hs : s ≠ [])
    (hhead : s.head? ≠ some '.') : pyStem n ++ s ≠ n := by
  intro h
  rcases hfind : rfindDot n with _ | i
  · have hk : pySuffixStart n = n.length := by
      rw [pySuffixStart, hfind]
    rw [pyStem, hk, List.take_length] at h
    have hlen := congrArg List.length h
    rw [List.length_append] at hlen
    exact hs (List.length_eq_zero.mp (by omega))
  · have hk : pySuffixStart n =
        if 0 < i ∧ i + 1 < n.length then i else n.length := by
      rw [pySuffixStart, hfind]
    rw [pyStem, hk] at h
    split_ifs at h with hcond
    · obtain ⟨pre, post, hsplit, hlen⟩ := rfindDot_split n i hfind
      rw [hsplit, ← hlen, List.take_left] at h
      have htail : s = '.' :: post := List.append_cancel_left h
      rw [htail] at hhead
      exact hhead rfl
    · rw [List.take_length] at h
      have hlen := congrArg List.length h
      rw [List.length_append] at hlen
      exact hs (List.length_eq_zero.mp (by omega))

/-- The produced output filename never collides with the saved input
filename: for an empty upload name they are the two distinct constants,
otherwise the output is `stem + "_blurred.mp4"`, which cannot equal
`stem + suffix` because a suffix is empty or starts with a dot. -/
theorem outputName_ne_inputName (f : List Char) :
    safeVideoOutputName f ≠ inputFileName f := by
  rcases eq_or_ne f [] with rfl | hf
  · decide
  · rw [safeVideoOutputName, if_neg hf, inputFileName, if_neg hf]
    exact pyStem_append_ne (pyName f) _ (by decide) (by decide)

theorem mem_fsInsert {s : List (List Char)} {n p : List Char} :
    p ∈ fsInsert s n ↔ p = n ∨ p ∈ s := by
  rw [fsInsert]
  split_ifs with h
  · exact ⟨Or.inr, fun hp => hp.elim (fun he => he ▸ h) id⟩
  · exact List.mem_cons

theorem mem_fsErase {s : List (List Char)} {n p : List Char} :
    p ∈ fsErase s n ↔ p ∈ s ∧ p ≠ n := by
  rw [fsErase, List.mem_filter]
  simp

theorem blurVideosStep_mem {s : List (List Char)} {f p : List Char}
    (hp : p ∈ blurVideosStep s f) :
    p = safeVideoOutputName f ∨ p ∈ s := by
  rw [blurVideosStep] at hp
  rw [mem_fsErase, mem_fsInsert, mem_fsErase, mem_fsInsert,
    mem_fsInsert] at hp
  tauto

/-- C10: after each `blur_videos` iteration the raw uploaded input file
is gone from the task directory (and the produced artifact is present —
the final unlink cannot hit it, their names never collide), and a run
of `blur_videos` leaves the fresh task directory holding only produced
output artifacts. -/
theorem blurVideos_only_outputs :
    (∀ (s : List (List Char)) (f : List Char),
      inputFileName f ∉ blurVideosStep s f ∧
        safeVideoOutputName f ∈ blurVideosStep s f) ∧
    (∀ (items : List (List Char)) (p : List Char),
      p ∈ blurVideos items → ∃ f ∈ items, p = safeVideoOutputName f) := by
  constructor
  · intro s f
    constructor
    · rw [blurVideosStep, mem_fsErase]
      rintro ⟨_, hne⟩
      exact hne rfl
    · rw [blurVideosStep, mem_fsErase, mem_fsInsert]
      exact ⟨Or.inl rfl, outputName_ne_inputName f⟩
  · have key : ∀ (items : List (List Char)) (s : List (List Char))
        (p : List Char), p ∈ items.foldl blurVideosStep s →
        p ∈ s ∨ ∃ f ∈ items, p = safeVideoOutputName f := by
      intro items
      induction items with
      | nil => intro s p hp; exact Or.inl hp
      | cons f rest ih =>
        intro s p hp
        rcases ih (blurVideosStep s f) p hp with hs | ⟨g, hg, hgp⟩
        · rcases blurVideosStep_mem hs with ho | hin
          · exact Or.inr ⟨f, by simp, ho⟩
          · exact Or.inl hin
        · exact Or.inr ⟨g, by simp [hg], hgp⟩
    intro items p hp
    rcases key items [] p hp with hin | hout
    · exact absurd hin (List.not_mem_nil p)
    · exact hout

/-- Witness for C10: processing the single upload `a.mp4` leaves the
task directory without `a.mp4` and with `a_blurred.mp4`, and the
membership statement applies to the produced artifact. -/
theorem blurVideos_only_outputs_witness :
    safeVideoOutputName (("a.mp4").toList) ∈
        blurVideos [("a.mp4").toList] ∧
    ∃ f ∈ [("a.mp4").toList],
      safeVideoOutputName (("a.mp4").toList) = safeVideoOutputName f :=
  ⟨by decide,
    blurVideos_only_outputs.2 [("a.mp4").toList]
      (safeVideoOutputName (("a.mp4").toList)) (by decide)⟩

end FaceBlur
